import Mathlib

/-!
Shallow embedding of the rust-visualizer analysis engine
(src-tauri/src: models.rs, parser.rs, analyzer.rs, python_analyzer.rs,
main.rs) and proofs about it.  Machine strings are modelled as Lean
`String`s; the recursive string helpers of Rust's stdlib
(`trim_start_matches`, `replace`, `split`, `split_whitespace`) are
reimplemented structurally over `List Char` with a fuel argument that is
always at least the input length, which bounds the loop count of the
Rust originals, so the fuelled versions compute the same results.
-/

namespace RustVisualizer

/-! ## Data model (models.rs) -/

inductive ModuleType where
  | Binary
  | Library
  | Module
  | Test
  | Example
  | Benchmark
deriving DecidableEq, Repr

inductive Visibility where
  | Public
  | Private
  | Crate
  | Super
deriving DecidableEq, Repr

inductive ItemType where
  | Function
  | Struct
  | Enum
  | Trait
  | Const
  | Static
  | TypeAlias
  | MacroDef
deriving DecidableEq, Repr

structure Item where
  name : String
  item_type : ItemType
  visibility : Visibility
deriving DecidableEq, Repr

structure Module where
  id : String
  name : String
  path : String
  module_type : ModuleType
  visibility : Visibility
  items : List Item
deriving DecidableEq, Repr

inductive DependencyType where
  | Normal
  | Dev
  | Build
deriving DecidableEq, Repr

structure Dependency where
  name : String
  version : String
  dep_type : DependencyType
deriving DecidableEq, Repr

inductive RelationType where
  | Uses
  | Declares
deriving DecidableEq, Repr

structure Relationship where
  from_ : String
  to_ : String
  rel_type : RelationType
deriving DecidableEq, Repr

structure ProjectStructure where
  root_path : String
  modules : List Module
  dependencies : List Dependency
  relationships : List Relationship
deriving DecidableEq, Repr

structure ModuleMetrics where
  lines_of_code : Nat
  incoming_deps : Nat
  outgoing_deps : Nat
  complexity_score : Nat
deriving DecidableEq, Repr

structure ProjectProblems where
  cycles : List (List String)
  unused_modules : List String
  large_modules : List String
  highly_coupled : List String
deriving DecidableEq, Repr

/-! ## Rust string-stdlib helpers, fuelled structural versions -/

/-- One Rust `str::trim_start_matches(p)` loop: repeatedly strip the
prefix `p`.  `fuel ≥ s.length` suffices since each step drops at least
one character of a nonempty prefix. -/
def trimStartMatchesFuel : Nat → List Char → List Char → List Char
  | 0, _, s => s
  | fuel + 1, p, s =>
    if p ≠ [] ∧ p.isPrefixOf s then trimStartMatchesFuel fuel p (s.drop p.length) else s

def trimStartMatches (p s : List Char) : List Char :=
  trimStartMatchesFuel s.length p s

/-- Rust `str::trim_end_matches(p)`: repeatedly strip the suffix `p`,
realised as the reversed prefix strip. -/
def trimEndMatches (p s : List Char) : List Char :=
  (trimStartMatches p.reverse s.reverse).reverse

/-- Rust `str::replace(pat, rep)`: replace every non-overlapping
occurrence of `pat`, leftmost first.  `fuel ≥ s.length` suffices. -/
def replaceAllFuel : Nat → List Char → List Char → List Char → List Char
  | 0, _, _, s => s
  | fuel + 1, pat, rep, s =>
    if pat ≠ [] ∧ pat.isPrefixOf s then
      rep ++ replaceAllFuel fuel pat rep (s.drop pat.length)
    else
      match s with
      | [] => []
      | c :: rest => c :: replaceAllFuel fuel pat rep rest

def replaceAll (pat rep s : List Char) : List Char :=
  replaceAllFuel s.length pat rep s

/-- Rust `str::replace` lifted to `String`. -/
def strReplace (s pat rep : String) : String :=
  String.mk (replaceAll pat.data rep.data s.data)

/-- Rust `str::starts_with`. -/
def strStartsWith (s p : String) : Bool :=
  p.data.isPrefixOf s.data

/-- Rust `str::ends_with`. -/
def strEndsWith (s p : String) : Bool :=
  p.data.isSuffixOf s.data

/-- Infix test on character lists (Rust `str::contains`). -/
def isInfixOfCh (pat : List Char) : List Char → Bool
  | [] => pat.isEmpty
  | c :: rest => pat.isPrefixOf (c :: rest) || isInfixOfCh pat rest

/-- Rust `str::contains` on a literal pattern. -/
def strContains (s pat : String) : Bool :=
  isInfixOfCh pat.data s.data

/-- Rust `str::trim`. -/
def strTrim (s : String) : String :=
  String.mk (((s.data.dropWhile Char.isWhitespace).reverse.dropWhile Char.isWhitespace).reverse)

/-- Accumulator pass of Rust `str::split_whitespace`: maximal
whitespace-free words, no empties. -/
def wordsAux : List Char → List Char → List (List Char)
  | [], acc => if acc = [] then [] else [acc.reverse]
  | c :: rest, acc =>
    if c.isWhitespace then
      if acc = [] then wordsAux rest [] else acc.reverse :: wordsAux rest []
    else
      wordsAux rest (c :: acc)

/-- Rust `str::split_whitespace`. -/
def splitWhitespace (s : String) : List String :=
  (wordsAux s.data []).map String.mk

/-- Accumulator pass of Rust `str::split(sep)` (literal separator,
keeping empty parts).  `fuel ≥ s.length + 1` suffices: every recursive
call consumes at least one character of `s`. -/
def splitOnSubAux : Nat → List Char → List Char → List Char → List (List Char)
  | 0, _, s, cur => [cur ++ s]
  | fuel + 1, sep, s, cur =>
    if sep ≠ [] ∧ sep.isPrefixOf s then
      cur :: splitOnSubAux fuel sep (s.drop sep.length) []
    else
      match s with
      | [] => [cur]
      | c :: rest => splitOnSubAux fuel sep rest (cur ++ [c])

/-- Rust `str::split(sep).collect::<Vec<_>>()` for a literal separator. -/
def strSplit (s sep : String) : List String :=
  (splitOnSubAux (s.data.length + 1) sep.data s.data []).map String.mk

/-! ## Path normalisation (analyzer.rs / parser.rs / python_analyzer.rs) -/

/-- Embeds `ProjectAnalyzer::path_to_module_name` (analyzer.rs lines 257-270). -/
def rust_path_to_module_name (path : String) : String :=
  let s := trimStartMatches "src/".data path.data
  let s := trimStartMatches "tests/".data s
  let s := trimStartMatches "examples/".data s
  let s := trimStartMatches "benches/".data s
  let s := trimEndMatches ".rs".data s
  let s := replaceAll "/mod".data [] s
  let s := replaceAll "/".data "::".data s
  let s := replaceAll "\\".data "::".data s
  String.mk s

/-- Canonical-id derivation for the Rust family
(`module_path.replace("::", "_")`, parser.rs line 36). -/
def rust_module_id (module_path : String) : String :=
  strReplace module_path "::" "_"

/-- Embeds `PythonAnalyzer::path_to_module_name` (python_analyzer.rs lines 199-206). -/
def python_path_to_module_name (path : String) : String :=
  let s := trimEndMatches ".py".data path.data
  let s := replaceAll "/__init__".data [] s
  let s := replaceAll "/".data ".".data s
  let s := replaceAll "\\".data ".".data s
  String.mk s

/-- Canonical-id derivation for the Python family
(`module_path.replace(".", "_").replace("/", "_")`,
python_analyzer.rs line 147). -/
def python_module_id (module_path : String) : String :=
  strReplace (strReplace module_path "." "_") "/" "_"

/-! ## Module-kind inference (parser.rs / python_analyzer.rs) -/

/-- Embeds `RustParser::determine_module_type` (parser.rs lines 48-63). -/
def rust_determine_module_type (path : String) : ModuleType :=
  if strContains path "tests/" || strContains path "test.rs" then ModuleType.Test
  else if strContains path "examples/" then ModuleType.Example
  else if strContains path "benches/" then ModuleType.Benchmark
  else if strContains path "main.rs" then ModuleType.Binary
  else if strContains path "lib.rs" then ModuleType.Library
  else ModuleType.Module

/-- Embeds `PythonAnalyzer::determine_module_type` (python_analyzer.rs lines 186-197). -/
def python_determine_module_type (path : String) : ModuleType :=
  if strContains path "test_" || strContains path "/tests/" then ModuleType.Test
  else if strContains path "/examples/" then ModuleType.Example
  else if strEndsWith path "__main__.py" then ModuleType.Binary
  else ModuleType.Module

/-! ## Heuristic import extraction (python_analyzer.rs) -/

/-- Embeds `PythonAnalyzer::extract_import` (python_analyzer.rs lines 162-172). -/
def extract_import (line : String) : Option String :=
  if strStartsWith line "import " then
    (splitWhitespace line).get? 1
  else if strStartsWith line "from " then
    (splitWhitespace line).get? 1
  else
    none

/-- The amended §4.3 sentence, stated in its own words: a line beginning
with either import keyword records the whole first whitespace-delimited
token after the keyword (for a from-import this is the full dotted path,
not just its first segment); any other line records nothing. -/
def extract_import_spec_amended (line : String) : Option String :=
  if strStartsWith line "import " ∨ strStartsWith line "from " then
    (splitWhitespace line).get? 1
  else
    none

/-! ## Requirements parsing (python_analyzer.rs lines 37-66)

Only the line-processing loop of `parse_requirements` is embedded; the
manifest-file location logic around it does no line processing. -/

/-- The body of the `requirements.txt` branch of
`PythonAnalyzer::parse_requirements`: per line, trim, skip empty and
`#`-lines, split on `==`, defaulting the version to `*`. -/
def parse_requirements_lines (lines : List String) : List Dependency :=
  lines.filterMap fun rawLine =>
    let line := strTrim rawLine
    if line = "" ∨ strStartsWith line "#" then
      none
    else
      let parts := strSplit line "=="
      some { name := strTrim ((parts.get? 0).getD "")
             version := strTrim ((parts.get? 1).getD "*")
             dep_type := DependencyType.Normal }

/-! ## Unused-module detection (analyzer.rs lines 101-117) -/

/-- Embeds `ProjectAnalyzer::find_unused_modules`: push `module.name` for every
module with no incoming `Uses` edge whose kind is neither Binary nor
Library. -/
def find_unused_modules (ps : ProjectStructure) : List String :=
  (ps.modules.filter fun m =>
    decide (¬ (∃ r ∈ ps.relationships, r.to_ = m.id ∧ r.rel_type = RelationType.Uses) ∧
      m.module_type ≠ ModuleType.Binary ∧ m.module_type ≠ ModuleType.Library)).map
    Module.name

/-! ## Project recognition (main.rs lines 14-41)

`analyze_project` only probes the filesystem for marker files before
dispatching to one of the two analyzers; the probe is modelled as the
set of files present, and the two analyzer invocations as the results
they would return. -/

structure FsProbe where
  root_exists : Bool
  has_file : String → Bool

def python_markers : List String :=
  ["setup.py", "requirements.txt", "pyproject.toml", "__init__.py"]

/-- Embeds `analyze_project` (main.rs lines 14-41). -/
def analyze_project (fs : FsProbe) (rustResult pythonResult : Except String ProjectStructure) :
    Except String ProjectStructure :=
  if !fs.root_exists then Except.error "Project path does not exist"
  else if fs.has_file "Cargo.toml" then rustResult
  else if python_markers.any fs.has_file then pythonResult
  else Except.error "Not a valid Rust or Python project"

/-! ## Cycle detection (analyzer.rs lines 32-72)

`detect_cycles` / `dfs_cycle` with the two `HashSet`s modelled as lists
(only membership is observed) and the recursion run on explicit frames
with a fuel counter.  Each recursive call of the Rust original
corresponds to one frame at one less fuel; the fuel chosen in
`detect_cycles` exceeds the deepest possible call stack (visits nest at
most one deeper than the number of distinct node names, and each visit
chains through at most one frame per relationship), so the embedding
computes the full run. -/

structure DfsState where
  visited : List String
  recStack : List String
  path : List String
  cycles : List (List String)
deriving DecidableEq, Repr

/-- Embeds `path.iter().position(|x| x == &rel.to)` combined with
`path[pos..].to_vec()`: the suffix of `path` starting at the first
occurrence of `t`. -/
def suffixFrom : List String → String → Option (List String)
  | [], _ => none
  | x :: rest, t => if x = t then some (x :: rest) else suffixFrom rest t

inductive DfsFrame where
  | visit (node : String)
  | edges (pending : List Relationship) (node : String)

/-- One engine for `dfs_cycle`: a `visit` frame performs the
enter/loop/exit of one `dfs_cycle` call, an `edges` frame the remaining
iterations of its `for rel in &self.relationships` loop. -/
def dfsRun (rels : List Relationship) : Nat → DfsFrame → DfsState → DfsState
  | 0, _, s => s
  | fuel + 1, DfsFrame.visit node, s =>
    let s1 : DfsState :=
      { visited := node :: s.visited
        recStack := node :: s.recStack
        path := s.path ++ [node]
        cycles := s.cycles }
    let s2 := dfsRun rels fuel (DfsFrame.edges rels node) s1
    { visited := s2.visited
      recStack := s2.recStack.erase node
      path := s2.path.dropLast
      cycles := s2.cycles }
  | _ + 1, DfsFrame.edges [] _, s => s
  | fuel + 1, DfsFrame.edges (r :: rest) node, s =>
    if r.from_ = node then
      if r.to_ ∉ s.visited then
        dfsRun rels fuel (DfsFrame.edges rest node)
          (dfsRun rels fuel (DfsFrame.visit r.to_) s)
      else if r.to_ ∈ s.recStack then
        match suffixFrom s.path r.to_ with
        | some c =>
          dfsRun rels fuel (DfsFrame.edges rest node)
            { s with cycles := s.cycles ++ [c] }
        | none => dfsRun rels fuel (DfsFrame.edges rest node) s
      else
        dfsRun rels fuel (DfsFrame.edges rest node) s
    else
      dfsRun rels fuel (DfsFrame.edges rest node) s

/-- Fuel bound exceeding any reachable `dfs_cycle` stack depth. -/
def dfsFuel (ps : ProjectStructure) : Nat :=
  (ps.modules.length + ps.relationships.length + 1) * (ps.relationships.length + 2)

/-- One iteration of the `for module in &self.modules` loop of
`detect_cycles`: start a DFS at any not-yet-visited module id. -/
def detectStep (ps : ProjectStructure) (s : DfsState) (m : Module) : DfsState :=
  if m.id ∈ s.visited then s
  else dfsRun ps.relationships (dfsFuel ps) (DfsFrame.visit m.id) s

/-- Embeds `ProjectAnalyzer::detect_cycles`, up to the final state of the module loop. -/
def detectCyclesState (ps : ProjectStructure) : DfsState :=
  ps.modules.foldl (detectStep ps) ⟨[], [], [], []⟩

/-- Embeds `ProjectAnalyzer::detect_cycles` (analyzer.rs lines 32-44). -/
def detect_cycles (ps : ProjectStructure) : List (List String) :=
  (detectCyclesState ps).cycles

/-- The directed edge relation of a relationship set. -/
def EdgeRel (rels : List Relationship) (x y : String) : Prop :=
  ∃ r ∈ rels, r.from_ = x ∧ r.to_ = y

/-! ## Metrics and problem classification (analyzer.rs lines 74-99,
main.rs lines 166-196)

`calculate_metrics` re-reads each module's file to count lines; the
filesystem is abstracted as `loc : String → Nat` giving the line count
per path (`0` for an unreadable file, as `unwrap_or(0)` does).  The
Rust code stores the metrics in a `std::collections::HashMap` and
`analyze_problems` iterates over it; a `HashMap`'s iteration order is
unspecified (randomly seeded per instance), so the iteration is
modelled by an explicit entry list `iter`, constrained in theorems to
be a permutation of the map's contents. -/

/-- Contents of the map built by `ProjectAnalyzer::calculate_metrics`,
in module order (each module's id is its key). -/
def calculate_metrics (ps : ProjectStructure) (loc : String → Nat) :
    List (String × ModuleMetrics) :=
  ps.modules.map fun m =>
    (m.id,
      { lines_of_code := loc m.path
        incoming_deps := (ps.relationships.filter fun r => decide (r.to_ = m.id)).length
        outgoing_deps := (ps.relationships.filter fun r => decide (r.from_ = m.id)).length
        complexity_score := m.items.length })

/-- Embeds `analyze_problems` (main.rs lines 166-196), with the metrics-map
iteration order made explicit as `iter`. -/
def analyze_problems_iter (ps : ProjectStructure) (iter : List (String × ModuleMetrics)) :
    ProjectProblems :=
  { cycles := detect_cycles ps
    unused_modules := find_unused_modules ps
    large_modules := iter.filterMap fun e =>
      if e.2.lines_of_code > 500 then
        (ps.modules.find? fun m => decide (m.id = e.1)).map fun m =>
          m.name ++ " (" ++ toString e.2.lines_of_code ++ " lines)"
      else none
    highly_coupled := iter.filterMap fun e =>
      if e.2.incoming_deps > 10 then
        (ps.modules.find? fun m => decide (m.id = e.1)).map fun m =>
          m.name ++ " (" ++ toString e.2.incoming_deps ++ " deps)"
      else none }

/-! ## Use-tree expansion (parser.rs lines 160-183)

`syn::UseTree` with its `Vec` of group members rendered as a mutual
forest type, so the recursion stays structural. -/

mutual
inductive UseTree where
  | path (ident : String) (sub : UseTree)
  | name (ident : String)
  | rename (ident : String)
  | glob
  | group (items : UseForest)

inductive UseForest where
  | nil
  | cons (head : UseTree) (tail : UseForest)
end

mutual
/-- Embeds `RustParser::extract_use_paths`, returning the list of raw targets
it pushes onto `self.uses`, in push order (a path node recurses into
its subtree before pushing its own segment). -/
def extract_use_paths : UseTree → List String
  | UseTree.path ident sub =>
    extract_use_paths sub ++ (if ident = "" then [] else [ident])
  | UseTree.name ident => [ident]
  | UseTree.rename ident => [ident]
  | UseTree.glob => []
  | UseTree.group items => extract_use_paths_forest items

/-- The `for item in &g.items` loop of the group arm. -/
def extract_use_paths_forest : UseForest → List String
  | UseForest.nil => []
  | UseForest.cons t ts => extract_use_paths t ++ extract_use_paths_forest ts
end

mutual
/-- The §4.4 sentence of the spec in its own words: a path-segment
use-import records the leading segment name and recurses, a plain or
renamed name records that name, a glob records no target, a group
recurses into every member. -/
def spec_use_targets : UseTree → List String
  | UseTree.path ident sub => ident :: spec_use_targets sub
  | UseTree.name ident => [ident]
  | UseTree.rename ident => [ident]
  | UseTree.glob => []
  | UseTree.group items => spec_use_targets_forest items

def spec_use_targets_forest : UseForest → List String
  | UseForest.nil => []
  | UseForest.cons t ts => spec_use_targets t ++ spec_use_targets_forest ts
end

mutual
/-- All identifiers in the tree are nonempty, as `syn` guarantees for
parsed Rust identifiers. -/
def nonempty_idents : UseTree → Bool
  | UseTree.path ident sub => decide (ident ≠ "") && nonempty_idents sub
  | UseTree.name ident => decide (ident ≠ "")
  | UseTree.rename ident => decide (ident ≠ "")
  | UseTree.glob => true
  | UseTree.group items => nonempty_idents_forest items

def nonempty_idents_forest : UseForest → Bool
  | UseForest.nil => true
  | UseForest.cons t ts => nonempty_idents t && nonempty_idents_forest ts
end

/-! ## Invariants of the DFS and concrete demonstration inputs -/

/-- What a recorded cycle satisfies: nonempty, an edge-chain, its last
node has an edge back to its first, and every node comes from the pool
`P`. -/
abbrev CycleOK (rels : List Relationship) (P : String → Prop) (c : List String) : Prop :=
  ∃ x y, c.head? = some x ∧ c.getLast? = some y ∧ EdgeRel rels y x ∧
    List.Chain' (EdgeRel rels) c ∧ ∀ z ∈ c, P z

/-- DFS state invariant: the current path is an edge-chain drawn from
`P`, and every recorded cycle satisfies `CycleOK`. -/
abbrev StateInv (rels : List Relationship) (P : String → Prop) (s : DfsState) : Prop :=
  List.Chain' (EdgeRel rels) s.path ∧ (∀ x ∈ s.path, P x) ∧ ∀ c ∈ s.cycles, CycleOK rels P c

/-- Per-frame precondition: a visit target is in the pool and extends
the path chain; an edge frame processes a sub-list of the relationship
list while the path ends at its node. -/
abbrev FrameOK (rels : List Relationship) (P : String → Prop) (s : DfsState) : DfsFrame → Prop
  | DfsFrame.visit node => P node ∧ List.Chain' (EdgeRel rels) (s.path ++ [node])
  | DfsFrame.edges pending node =>
    (∀ r ∈ pending, r ∈ rels) ∧ s.path ≠ [] ∧ s.path.getLast? = some node

/-- The pool of node names a DFS over `ps` can ever visit: module ids
and edge targets. -/
abbrev NodePool (ps : ProjectStructure) (x : String) : Prop :=
  (∃ m ∈ ps.modules, m.id = x) ∨ (∃ r ∈ ps.relationships, r.to_ = x)

/-- A plain module with no items, used by the concrete runs below. -/
def mkModule (id name path : String) : Module :=
  ⟨id, name, path, ModuleType.Module, Visibility.Public, []⟩

/-- One Plain module, no relationships: an acyclic project. -/
def psAcyclicDemo : ProjectStructure :=
  ⟨"", [mkModule "solo" "solo" "ps"], [], []⟩

/-- One Plain module with no incoming `Uses` edge. -/
def psUnusedDemo : ProjectStructure :=
  ⟨"", [mkModule "m" "m" "pm"], [], []⟩

/-- A module whose logical path has two segments (name `a::b`, id
`a_b`), unused (its only incoming edge is a `Declares` self-loop) and
on a cycle through that same self-loop. -/
def psKeyspaceDemo : ProjectStructure :=
  ⟨"", [mkModule "a_b" "a::b" "pab"], [], [⟨"a_b", "a_b", RelationType.Declares⟩]⟩

/-- Two Plain modules `a`, `b` with no relationships; their files have
501 and 502 lines. -/
def psMetricsDemo : ProjectStructure :=
  ⟨"", [mkModule "a" "a" "pa", mkModule "b" "b" "pb"], [], []⟩

def locDemo : String → Nat :=
  fun p => if p = "pa" then 501 else if p = "pb" then 502 else 0

/-- A probe for a directory that exists but holds no recognised marker
file at all. -/
def fsEmptyDemo : FsProbe :=
  ⟨true, fun _ => false⟩

/-- The tree of `use a::\x7bb, *, c as d\x7d`. -/
def treeDemo : UseTree :=
  UseTree.path "a" (UseTree.group
    (UseForest.cons (UseTree.name "b")
      (UseForest.cons UseTree.glob
        (UseForest.cons (UseTree.rename "c") UseForest.nil))))

/-! ## Theorems -/

theorem suffixFrom_spec :
    ∀ (l : List String) (t : String) (c : List String),
      suffixFrom l t = some c → c.head? = some t ∧ c <:+ l := by
  intro l
  induction l with
  | nil => intro t c h; simp [suffixFrom] at h
  | cons x rest ih =>
    intro t c h
    by_cases hx : x = t
    · rw [suffixFrom, if_pos hx] at h
      obtain rfl : x :: rest = c := Option.some.inj h
      exact ⟨by simp [hx], List.suffix_refl _⟩
    · rw [suffixFrom, if_neg hx] at h
      obtain ⟨hh, hs⟩ := ih t c h
      exact ⟨hh, hs.trans (List.suffix_cons x rest)⟩

/-- C1: the path-to-module-id normalization is claimed injective on
distinct accepted paths, with a directory index file never colliding
with the sibling plain file and index collapsing never touching other
segments.  The code violates all of it: `src/pkg/mod.rs` and
`src/pkg.rs` both normalize to id `pkg` (likewise `pkg/__init__.py`
and `pkg.py`), and `replace("/mod", "")` rewrites the unrelated
segment of `src/a/models.rs` into `aels`. -/
theorem path_normalization_collides :
    rust_module_id (rust_path_to_module_name "src/pkg/mod.rs") = "pkg" ∧
    rust_module_id (rust_path_to_module_name "src/pkg.rs") = "pkg" ∧
    ("src/pkg/mod.rs" : String) ≠ "src/pkg.rs" ∧
    rust_path_to_module_name "src/a/models.rs" = "aels" ∧
    python_module_id (python_path_to_module_name "pkg/__init__.py") = "pkg" ∧
    python_module_id (python_path_to_module_name "pkg.py") = "pkg" ∧
    ("pkg/__init__.py" : String) ≠ "pkg.py" := by
  decide

/-- C2 counterexample: on `from os.path import join` the extractor
records the whole token `os.path`, not the first dotted segment `os`
the claim states. -/
theorem extract_import_counterexample :
    extract_import "from os.path import join" = some "os.path" ∧
    ("os.path" : String) ≠ "os" ∧
    extract_import "from os.path import join" ≠ some "os" := by
  decide

/-- C2 amended: for a line beginning with either import keyword the
extractor records the whole first whitespace-delimited token after the
keyword (for a from-import, the full dotted path); other lines record
nothing. -/
theorem extract_import_records_full_token :
    ∀ line : String, extract_import line = extract_import_spec_amended line := by
  intro line
  unfold extract_import extract_import_spec_amended
  by_cases h1 : strStartsWith line "import " = true <;>
    by_cases h2 : strStartsWith line "from " = true <;>
      simp [h1, h2]

/-- C3: module-kind inference is claimed to leave files like
`domain.rs` or `latest.rs` under the source root as Plain.  The code
tests substring containment, so `src/domain.rs` (containing
`main.rs`) becomes Binary and `src/latest.rs` (containing `test.rs`)
becomes Test. -/
theorem determine_module_type_substring_bug :
    rust_determine_module_type "src/domain.rs" = ModuleType.Binary ∧
    rust_determine_module_type "src/latest.rs" = ModuleType.Test ∧
    ModuleType.Binary ≠ ModuleType.Module ∧
    ModuleType.Test ≠ ModuleType.Module := by
  decide

/-- C5: a module is reported unused iff no `Uses` relationship targets
its id and its kind is neither Binary nor Library; `Declares` edges do
not count and Binary/Library modules are never reported. -/
theorem find_unused_modules_iff (ps : ProjectStructure) :
    (∀ m ∈ ps.modules,
      (¬ (∃ r ∈ ps.relationships, r.to_ = m.id ∧ r.rel_type = RelationType.Uses) ∧
        m.module_type ≠ ModuleType.Binary ∧ m.module_type ≠ ModuleType.Library) →
      m.name ∈ find_unused_modules ps) ∧
    (∀ n ∈ find_unused_modules ps, ∃ m ∈ ps.modules,
      m.name = n ∧
      ¬ (∃ r ∈ ps.relationships, r.to_ = m.id ∧ r.rel_type = RelationType.Uses) ∧
      m.module_type ≠ ModuleType.Binary ∧ m.module_type ≠ ModuleType.Library) := by
  constructor
  · intro m hm hcond
    simp only [find_unused_modules, List.mem_map, List.mem_filter, decide_eq_true_eq]
    exact ⟨m, ⟨hm, hcond⟩, rfl⟩
  · intro n hn
    simp only [find_unused_modules, List.mem_map, List.mem_filter, decide_eq_true_eq] at hn
    obtain ⟨m, ⟨hm, hcond⟩, hname⟩ := hn
    exact ⟨m, hm, hname, hcond⟩

/-- C5 witness: the single Plain module of `psUnusedDemo` has no
incoming `Uses` edge, so its name is reported. -/
theorem find_unused_modules_iff_witness :
    "m" ∈ find_unused_modules psUnusedDemo :=
  (find_unused_modules_iff psUnusedDemo).1 (mkModule "m" "m" "pm") (by decide) (by decide)

/-- C8: an existing root with neither the Cargo manifest nor any
Python marker file makes `analyze_project` fail with the
unrecognized-project error, producing no structure at all. -/
theorem analyze_project_unrecognized (fs : FsProbe)
    (rustResult pythonResult : Except String ProjectStructure)
    (hroot : fs.root_exists = true)
    (hcargo : fs.has_file "Cargo.toml" = false)
    (hmarkers : ∀ m ∈ python_markers, fs.has_file m = false) :
    analyze_project fs rustResult pythonResult =
      Except.error "Not a valid Rust or Python project" := by
  have hany : python_markers.any fs.has_file = false :=
    List.any_eq_false.mpr fun m hm => by simp [hmarkers m hm]
  simp [analyze_project, hroot, hcargo, hany]

/-- C8 witness: the empty probe of `fsEmptyDemo`. -/
theorem analyze_project_unrecognized_witness :
    analyze_project fsEmptyDemo (Except.error "ra") (Except.error "pa") =
      Except.error "Not a valid Rust or Python project" :=
  analyze_project_unrecognized fsEmptyDemo (Except.error "ra") (Except.error "pa")
    rfl rfl (fun _ _ => rfl)

/-- C9: the requirements parser skips empty and comment lines, splits
remaining lines on `==` with wildcard default, and records every
dependency as Normal; in particular the `flask==2.0.1` scenario yields
exactly one Normal dependency. -/
theorem parse_requirements_spec :
    parse_requirements_lines ["flask==2.0.1", "# This is a comment", ""] =
      [⟨"flask", "2.0.1", DependencyType.Normal⟩] ∧
    (∀ lines : List String, ∀ d ∈ parse_requirements_lines lines,
      d.dep_type = DependencyType.Normal) ∧
    (∀ (line : String) (lines : List String),
      (strTrim line = "" ∨ strStartsWith (strTrim line) "#") →
      parse_requirements_lines (line :: lines) = parse_requirements_lines lines) ∧
    parse_requirements_lines ["requests"] = [⟨"requests", "*", DependencyType.Normal⟩] := by
  refine ⟨by decide, ?_, ?_, by decide⟩
  · intro lines d hd
    simp only [parse_requirements_lines, List.mem_filterMap] at hd
    obtain ⟨raw, _, heq⟩ := hd
    by_cases hc : strTrim raw = "" ∨ strStartsWith (strTrim raw) "#"
    · simp [hc] at heq
    · simp only [if_neg hc, Option.some.injEq] at heq
      rw [← heq]
  · intro line lines hcond
    unfold parse_requirements_lines
    rw [List.filterMap_cons]
    simp [hcond]

/-- C9 witness: a comment line contributes nothing. -/
theorem parse_requirements_spec_witness :
    parse_requirements_lines ["# only a comment"] = parse_requirements_lines [] :=
  parse_requirements_spec.2.2.1 "# only a comment" [] (Or.inr (by decide))

/-- C7: on any use-tree whose identifiers are nonempty (as `syn`
guarantees), the targets collected by `extract_use_paths` are exactly
those of the stated recursive expansion: a path node records its
leading segment and recurses, a plain or renamed name records that
name, a glob records nothing, a group recurses into every member. -/
theorem extract_use_paths_matches_spec :
    ∀ t : UseTree, nonempty_idents t = true →
      ∀ x : String, x ∈ extract_use_paths t ↔ x ∈ spec_use_targets t :=
  @UseTree.rec
    (fun t => nonempty_idents t = true →
      ∀ x, x ∈ extract_use_paths t ↔ x ∈ spec_use_targets t)
    (fun f => nonempty_idents_forest f = true →
      ∀ x, x ∈ extract_use_paths_forest f ↔ x ∈ spec_use_targets_forest f)
    (by intro ident sub ih h x
        simp only [nonempty_idents, Bool.and_eq_true, decide_eq_true_eq] at h
        obtain ⟨hne, hsub⟩ := h
        simp only [extract_use_paths, spec_use_targets, List.mem_append, List.mem_cons,
          if_neg hne, List.mem_singleton, ih hsub x]
        tauto)
    (by intro ident h x; simp [extract_use_paths, spec_use_targets])
    (by intro ident h x; simp [extract_use_paths, spec_use_targets])
    (by intro h x; simp [extract_use_paths, spec_use_targets])
    (by intro items ih h x
        simp only [nonempty_idents] at h
        simp only [extract_use_paths, spec_use_targets]
        exact ih h x)
    (by intro h x; simp [extract_use_paths_forest, spec_use_targets_forest])
    (by intro head tail ih1 ih2 h x
        simp only [nonempty_idents_forest, Bool.and_eq_true] at h
        simp only [extract_use_paths_forest, spec_use_targets_forest, List.mem_append,
          ih1 h.1 x, ih2 h.2 x])

/-- C7 witness: the tree of `use a::{b, *, c as d}`. -/
theorem extract_use_paths_matches_spec_witness :
    nonempty_idents treeDemo = true ∧
    (("a" ∈ extract_use_paths treeDemo) ↔ ("a" ∈ spec_use_targets treeDemo)) :=
  ⟨by decide, extract_use_paths_matches_spec treeDemo (by decide) "a"⟩

/-- C4: the analysis is claimed byte-for-byte deterministic across two
runs, including the entry order of `large_modules` and
`highly_coupled`.  Those lists are produced by iterating a
`std::collections::HashMap`, whose iteration order is unspecified and
randomly seeded per instance; the two orders below are permutations of
the same metrics map for the same unchanged project, yet yield
different `ProjectProblems` values. -/
theorem analyze_problems_order_dependent :
    ((calculate_metrics psMetricsDemo locDemo).reverse).Perm
      (calculate_metrics psMetricsDemo locDemo) ∧
    analyze_problems_iter psMetricsDemo (calculate_metrics psMetricsDemo locDemo) ≠
      analyze_problems_iter psMetricsDemo ((calculate_metrics psMetricsDemo locDemo).reverse) := by
  decide

theorem dfsRun_visit_eq (rels : List Relationship) (fuel : Nat) (node : String) (s : DfsState) :
    dfsRun rels (fuel + 1) (DfsFrame.visit node) s =
      (fun s2 => DfsState.mk s2.visited (s2.recStack.erase node) s2.path.dropLast s2.cycles)
        (dfsRun rels fuel (DfsFrame.edges rels node)
          ⟨node :: s.visited, node :: s.recStack, s.path ++ [node], s.cycles⟩) := rfl

theorem dfsRun_edges_nil_eq (rels : List Relationship) (fuel : Nat) (node : String) (s : DfsState) :
    dfsRun rels (fuel + 1) (DfsFrame.edges [] node) s = s := rfl

theorem dfsRun_edges_cons_eq (rels : List Relationship) (fuel : Nat) (r : Relationship)
    (rest : List Relationship) (node : String) (s : DfsState) :
    dfsRun rels (fuel + 1) (DfsFrame.edges (r :: rest) node) s =
      if r.from_ = node then
        if r.to_ ∉ s.visited then
          dfsRun rels fuel (DfsFrame.edges rest node)
            (dfsRun rels fuel (DfsFrame.visit r.to_) s)
        else if r.to_ ∈ s.recStack then
          match suffixFrom s.path r.to_ with
          | some c =>
            dfsRun rels fuel (DfsFrame.edges rest node)
              { s with cycles := s.cycles ++ [c] }
          | none => dfsRun rels fuel (DfsFrame.edges rest node) s
        else
          dfsRun rels fuel (DfsFrame.edges rest node) s
      else
        dfsRun rels fuel (DfsFrame.edges rest node) s := rfl

theorem dfsRun_inv (rels : List Relationship) (P : String → Prop)
    (hP : ∀ r ∈ rels, P r.to_) :
    ∀ (fuel : Nat) (frame : DfsFrame) (s : DfsState),
      StateInv rels P s → FrameOK rels P s frame →
      StateInv rels P (dfsRun rels fuel frame s) ∧ (dfsRun rels fuel frame s).path = s.path := by
  intro fuel
  induction fuel with
  | zero => intro frame s hs _; exact ⟨hs, rfl⟩
  | succ fuel ih =>
    intro frame s hs hf
    match frame with
    | DfsFrame.visit node =>
      obtain ⟨hPnode, hchain⟩ := hf
      rw [dfsRun_visit_eq]
      have hs1 : StateInv rels P ⟨node :: s.visited, node :: s.recStack, s.path ++ [node], s.cycles⟩ := by
        refine ⟨hchain, ?_, hs.2.2⟩
        intro x hx
        rcases List.mem_append.mp hx with h | h
        · exact hs.2.1 x h
        · rw [List.mem_singleton] at h; subst h; exact hPnode
      have hf1 : FrameOK rels P ⟨node :: s.visited, node :: s.recStack, s.path ++ [node], s.cycles⟩
          (DfsFrame.edges rels node) := by
        refine ⟨fun r hr => hr, by simp, ?_⟩
        exact List.getLast?_concat s.path
      obtain ⟨hs2, hp2⟩ := ih (DfsFrame.edges rels node) _ hs1 hf1
      have hp2' : (dfsRun rels fuel (DfsFrame.edges rels node)
          ⟨node :: s.visited, node :: s.recStack, s.path ++ [node], s.cycles⟩).path =
          s.path ++ [node] := hp2
      dsimp only
      refine ⟨⟨?_, ?_, hs2.2.2⟩, ?_⟩
      · rw [hp2', List.dropLast_concat]; exact hs.1
      · intro x hx
        rw [hp2', List.dropLast_concat] at hx
        exact hs.2.1 x hx
      · rw [hp2', List.dropLast_concat]
    | DfsFrame.edges [] node =>
      rw [dfsRun_edges_nil_eq]; exact ⟨hs, rfl⟩
    | DfsFrame.edges (r :: rest) node =>
      obtain ⟨hpend, hne, hlast⟩ := hf
      have hrrels : r ∈ rels := hpend r (List.mem_cons_self r rest)
      have hpend' : ∀ r' ∈ rest, r' ∈ rels := fun r' h => hpend r' (List.mem_cons_of_mem r h)
      rw [dfsRun_edges_cons_eq]
      by_cases hfrom : r.from_ = node
      · rw [if_pos hfrom]
        by_cases hvis : r.to_ ∉ s.visited
        · rw [if_pos hvis]
          have hedge : EdgeRel rels node r.to_ := ⟨r, hrrels, hfrom, rfl⟩
          have hchain2 : List.Chain' (EdgeRel rels) (s.path ++ [r.to_]) := by
            rw [List.chain'_append]
            refine ⟨hs.1, List.chain'_singleton _, ?_⟩
            intro a ha b hb
            rw [hlast, Option.mem_some_iff] at ha
            simp only [List.head?_cons, Option.mem_some_iff] at hb
            subst ha; subst hb; exact hedge
          obtain ⟨hsV, hpV⟩ := ih (DfsFrame.visit r.to_) s hs ⟨hP r hrrels, hchain2⟩
          have hfR : FrameOK rels P (dfsRun rels fuel (DfsFrame.visit r.to_) s)
              (DfsFrame.edges rest node) := by
            refine ⟨hpend', ?_, ?_⟩ <;> rw [hpV]
            · exact hne
            · exact hlast
          obtain ⟨hsE, hpE⟩ := ih (DfsFrame.edges rest node) _ hsV hfR
          exact ⟨hsE, by rw [hpE, hpV]⟩
        · rw [if_neg hvis]
          by_cases hrec : r.to_ ∈ s.recStack
          · rw [if_pos hrec]
            cases hsuf : suffixFrom s.path r.to_ with
            | none =>
              simp only [hsuf]
              exact ih (DfsFrame.edges rest node) s hs ⟨hpend', hne, hlast⟩
            | some c =>
              simp only [hsuf]
              obtain ⟨hhead, hsufx⟩ := suffixFrom_spec s.path r.to_ c hsuf
              have hlastc : c.getLast? = some node := by
                obtain ⟨pre, hpre⟩ := hsufx
                have hcne : c ≠ [] := by
                  intro h; rw [h] at hhead; simp at hhead
                rw [← hpre, List.getLast?_append_of_ne_nil pre hcne] at hlast
                exact hlast
              have hCy : CycleOK rels P c := by
                refine ⟨r.to_, node, hhead, hlastc, ⟨r, hrrels, hfrom, rfl⟩, ?_, ?_⟩
                · exact hs.1.suffix hsufx
                · intro z hz; exact hs.2.1 z (hsufx.subset hz)
              have hs' : StateInv rels P { s with cycles := s.cycles ++ [c] } := by
                refine ⟨hs.1, hs.2.1, ?_⟩
                intro c' hc'
                rcases List.mem_append.mp hc' with h | h
                · exact hs.2.2 c' h
                · rw [List.mem_singleton] at h; subst h; exact hCy
              exact ih (DfsFrame.edges rest node) _ hs' ⟨hpend', hne, hlast⟩
          · rw [if_neg hrec]
            exact ih (DfsFrame.edges rest node) s hs ⟨hpend', hne, hlast⟩
      · rw [if_neg hfrom]
        exact ih (DfsFrame.edges rest node) s hs ⟨hpend', hne, hlast⟩


theorem detectCyclesState_inv (ps : ProjectStructure) :
    StateInv ps.relationships (NodePool ps) (detectCyclesState ps) := by
  have hP : ∀ r ∈ ps.relationships, NodePool ps r.to_ := fun r hr => Or.inr ⟨r, hr, rfl⟩
  suffices h : ∀ (mods : List Module) (s : DfsState),
      (∀ m ∈ mods, m ∈ ps.modules) →
      StateInv ps.relationships (NodePool ps) s → s.path = [] →
      StateInv ps.relationships (NodePool ps) (List.foldl (detectStep ps) s mods) ∧
        (List.foldl (detectStep ps) s mods).path = [] by
    exact (h ps.modules ⟨[], [], [], []⟩ (fun _ hm => hm)
      ⟨List.chain'_nil, by simp, by simp⟩ rfl).1
  intro mods
  induction mods with
  | nil => intro s _ hs hp; exact ⟨hs, hp⟩
  | cons m rest ih =>
    intro s hmods hs hp
    rw [List.foldl_cons]
    have hmem : m ∈ ps.modules := hmods m (List.mem_cons_self m rest)
    have hrest : ∀ m' ∈ rest, m' ∈ ps.modules := fun m' h => hmods m' (List.mem_cons_of_mem m h)
    unfold detectStep
    by_cases hv : m.id ∈ s.visited
    · rw [if_pos hv]; exact ih s hrest hs hp
    · rw [if_neg hv]
      have hframe : FrameOK ps.relationships (NodePool ps) s (DfsFrame.visit m.id) := by
        refine ⟨Or.inl ⟨m, hmem, rfl⟩, ?_⟩
        rw [hp]
        exact List.chain'_singleton _
      obtain ⟨hs', hp'⟩ := dfsRun_inv ps.relationships (NodePool ps) hP (dfsFuel ps)
        (DfsFrame.visit m.id) s hs hframe
      exact ih _ hrest hs' (by rw [hp', hp])

theorem cycleOK_transGen (rels : List Relationship) (P : String → Prop)
    (c : List String) (h : CycleOK rels P c) :
    ∃ x, Relation.TransGen (EdgeRel rels) x x := by
  obtain ⟨x, y, hhead, hlast, hedge, hchain, -⟩ := h
  match c, hhead, hlast, hchain with
  | a :: l, hhead, hlast, hchain =>
    have hax : a = x := by simpa using hhead
    have hch : List.Chain (EdgeRel rels) a l := hchain
    have hrt : Relation.ReflTransGen (EdgeRel rels) a
        ((a :: l).getLast (List.cons_ne_nil a l)) :=
      List.relationReflTransGen_of_exists_chain l hch rfl
    have hy : (a :: l).getLast (List.cons_ne_nil a l) = y := by
      have := List.getLast?_eq_getLast (a :: l) (List.cons_ne_nil a l)
      rw [this] at hlast
      exact Option.some.inj hlast
    subst hax
    rw [hy] at hrt
    exact ⟨a, Relation.TransGen.tail' hrt hedge⟩

theorem edgeRel_nil (a b : String) : ¬ EdgeRel [] a b := by
  rintro ⟨r, hr, -⟩
  exact (List.not_mem_nil r) hr

theorem transGen_edgeRel_nil (x y : String) :
    ¬ Relation.TransGen (EdgeRel ([] : List Relationship)) x y := by
  intro h
  induction h with
  | single h => exact edgeRel_nil _ _ h
  | tail _ h _ => exact edgeRel_nil _ _ h

/-- C6: on any relationship set whose edge relation is acyclic,
`detect_cycles` returns the empty list; and every cycle it ever
returns is closed by an edge of the relationship set from the cycle's
last recorded node back to its first. -/
theorem detect_cycles_acyclic_and_closure (ps : ProjectStructure) :
    ((∀ x, ¬ Relation.TransGen (EdgeRel ps.relationships) x x) → detect_cycles ps = []) ∧
    ∀ c ∈ detect_cycles ps, ∃ x y, c.head? = some x ∧ c.getLast? = some y ∧
      EdgeRel ps.relationships y x := by
  have hcyc : ∀ c ∈ detect_cycles ps, CycleOK ps.relationships (NodePool ps) c :=
    (detectCyclesState_inv ps).2.2
  constructor
  · intro hacyc
    rw [List.eq_nil_iff_forall_not_mem]
    intro c hc
    obtain ⟨x, hx⟩ := cycleOK_transGen _ _ c (hcyc c hc)
    exact hacyc x hx
  · intro c hc
    obtain ⟨x, y, h1, h2, h3, -, -⟩ := hcyc c hc
    exact ⟨x, y, h1, h2, h3⟩

theorem detect_cycles_acyclic_and_closure_witness :
    detect_cycles psAcyclicDemo = [] :=
  (detect_cycles_acyclic_and_closure psAcyclicDemo).1 (fun x => transGen_edgeRel_nil x x)

/-- C10: the two report key spaces differ: `find_unused_modules`
reports human-readable module names while every node recorded in a
`detect_cycles` cycle is drawn from canonical module ids and edge
targets; `psKeyspaceDemo`'s two-segment module appears as `a::b` in
the unused report but as its canonical id `a_b` in the cycle report. -/
theorem unused_and_cycle_key_spaces :
    (∀ (ps : ProjectStructure), ∀ n ∈ find_unused_modules ps,
      ∃ m ∈ ps.modules, m.name = n) ∧
    (∀ (ps : ProjectStructure), ∀ c ∈ detect_cycles ps, ∀ x ∈ c, NodePool ps x) ∧
    rust_module_id "a::b" = "a_b" ∧
    find_unused_modules psKeyspaceDemo = ["a::b"] ∧
    detect_cycles psKeyspaceDemo = [["a_b"]] ∧
    ("a::b" : String) ≠ "a_b" := by
  refine ⟨?_, ?_, by decide, by decide, by decide, by decide⟩
  · intro ps n hn
    simp only [find_unused_modules, List.mem_map, List.mem_filter] at hn
    obtain ⟨m, ⟨hm, -⟩, hname⟩ := hn
    exact ⟨m, hm, hname⟩
  · intro ps c hc x hx
    obtain ⟨-, -, -, -, -, -, hpool⟩ := (detectCyclesState_inv ps).2.2 c hc
    exact hpool x hx

theorem unused_and_cycle_key_spaces_witness :
    ∃ m ∈ psKeyspaceDemo.modules, m.name = "a::b" :=
  unused_and_cycle_key_spaces.1 psKeyspaceDemo "a::b" (by decide)

end RustVisualizer
